import Mathlib

/-!
# The SMT-backed key-value store (`store/smt/store.go`)

A shallow embedding of `Store.Get`, `Store.Has`, `Store.Set` and `Store.Delete`.

The store composes three things it does not implement itself:

* the sparse Merkle tree engine (`github.com/lazyledger/smt`), field `tree`;
* the persistent backend (`tm-db`), field `db`, which holds the index entries;
* a readers/writer lock (`sync.RWMutex`), field `mtx`.

The store functions are embedded once, for an arbitrary tree engine and an arbitrary
backend, each given as a record of operations on an explicit state.  A Go call
`v, err := obj.Op(args)` on a mutable object becomes a function from the object state
to the new object state and an `Except String _` result.

`NewStore` builds the tree over the same backend that holds the index.  The two use
disjoint key spaces of that backend (tree nodes under the keys of the tree engine,
index entries under a fixed prefix), so the state is kept in two parts: the tree state
`tree`, nodes included, and the index data `db`.

Byte slices are lists of bytes; the nil slice and the zero-length slice are both `[]`.
A call on the store ends in one of three ways: it returns, it panics, or it waits for
the lock forever; the state it leaves behind is part of the result.
-/

namespace Smt

/-- A Go byte slice, by content. -/
abbrev Bytes := List (Fin 256)

/-! ## The collaborators, as interfaces -/

/-- The operations of `*smt.SparseMerkleTree` that the store calls, over an explicit
tree state `τ` (current root and nodes).  `empty` is the tree built by
`smt.NewSparseMerkleTree`, `root` is its `Root()`. -/
structure TreeEngine (τ : Type) where
  empty : τ
  root : τ → Bytes
  get : τ → Bytes → Except String Bytes
  update : τ → Bytes → Bytes → τ × Except String Bytes
  delete : τ → Bytes → τ × Except String Bytes

/-- The operations of `dbm.DB` that the store calls on the index, over an explicit
backend state `δ`. -/
structure Backend (δ : Type) where
  has : δ → Bytes → Except String Bool
  set : δ → Bytes → Bytes → δ × Except String Unit
  delete : δ → Bytes → δ × Except String Unit

/-- State of a `sync.RWMutex`: the number of read holders and whether it is write-held. -/
structure RWMutex where
  readers : Nat
  writer : Bool
deriving DecidableEq, Repr

/-- The zero value of `sync.RWMutex`: nobody holds the lock. -/
def RWMutex.unlocked : RWMutex := ⟨0, false⟩

/-- Take the lock for reading; `none` when a writer holds it (the caller blocks). -/
def RWMutex.RLock (m : RWMutex) : Option RWMutex :=
  if m.writer then none else some { m with readers := m.readers + 1 }

/-- Release one read hold. -/
def RWMutex.RUnlock (m : RWMutex) : RWMutex :=
  { m with readers := m.readers - 1 }

/-- Take the lock for writing; `none` when anybody holds it (the caller blocks). -/
def RWMutex.Lock (m : RWMutex) : Option RWMutex :=
  if m.writer || m.readers != 0 then none else some { m with writer := true }

/-- Release the write hold. -/
def RWMutex.Unlock (m : RWMutex) : RWMutex :=
  { m with writer := false }

/-! ## The store -/

/-- The `Store` struct: `tree`, `db`, `mtx`. -/
structure Store (τ δ : Type) where
  tree : τ
  db : δ
  mtx : RWMutex
deriving DecidableEq, Repr

/-- How a call on the store ends: it returns a value, it panics with a message, or it
never gets the lock.  The first two carry the store state the call leaves behind. -/
inductive Outcome (σ α : Type) where
  | returned (val : α) (st : σ)
  | panicked (msg : String) (st : σ)
  | blocked
deriving DecidableEq, Repr

/-- Whether the call panicked. -/
def Outcome.isPanicked {σ α : Type} : Outcome σ α → Bool
  | .panicked _ _ => true
  | _ => false

/-- Modelled from the spec: the byte string in front of every index key; the package
variable is declared beside `indexKey`, outside `store.go`.  The spec only says it is a
fixed distinguishing prefix; these are the bytes of `smt-ordering-idx-`. -/
def indexPrefixBytes : Bytes :=
  [115, 109, 116, 45, 111, 114, 100, 101, 114, 105, 110, 103, 45, 105, 100, 120, 45]

/-- Modelled from the spec: `indexKey` is declared outside `store.go`; the spec gives the
index key as the fixed prefix concatenated with the original key. -/
def indexKey (key : Bytes) : Bytes :=
  indexPrefixBytes ++ key

variable {τ δ : Type}

/-- `NewStore`: a fresh tree over the backend, the backend itself, and a free lock. -/
def NewStore (E : TreeEngine τ) (underlyingDB : δ) : Store τ δ :=
  { tree := E.empty, db := underlyingDB, mtx := RWMutex.unlocked }

/-- `Store.Get`: read lock (released by `defer`), then `tree.Get`; an error gives nil. -/
def Store.Get (E : TreeEngine τ) (s : Store τ δ) (key : Bytes) :
    Outcome (Store τ δ) Bytes :=
  match s.mtx.RLock with
  | none => .blocked
  | some m =>
    match E.get s.tree key with
    | .error _ => .returned [] { s with mtx := m.RUnlock }
    | .ok val => .returned val { s with mtx := m.RUnlock }

/-- `Store.Has`: read lock (released by `defer`), then `db.Has(indexKey(key))`; the
result is `err == nil && has`. -/
def Store.Has (B : Backend δ) (s : Store τ δ) (key : Bytes) :
    Outcome (Store τ δ) Bool :=
  match s.mtx.RLock with
  | none => .blocked
  | some m =>
    match B.has s.db (indexKey key) with
    | .error _ => .returned false { s with mtx := m.RUnlock }
    | .ok has => .returned has { s with mtx := m.RUnlock }

/-- `Store.Set`: write lock, `tree.Update`, panic on error, `db.Set(indexKey(key), {})`,
panic on error, unlock.  The unlock is the last statement, not a `defer`. -/
def Store.Set (E : TreeEngine τ) (B : Backend δ) (s : Store τ δ) (key value : Bytes) :
    Outcome (Store τ δ) Unit :=
  match s.mtx.Lock with
  | none => .blocked
  | some m =>
    match E.update s.tree key value with
    | (t, .error err) => .panicked err { tree := t, db := s.db, mtx := m }
    | (t, .ok _) =>
      match B.set s.db (indexKey key) [] with
      | (d, .error err) => .panicked err { tree := t, db := d, mtx := m }
      | (d, .ok _) => .returned () { tree := t, db := d, mtx := m.Unlock }

/-- `Store.Delete`: write lock, `tree.Delete` and `db.Delete(indexKey(key))` with both
results discarded, unlock. -/
def Store.Delete (E : TreeEngine τ) (B : Backend δ) (s : Store τ δ) (key : Bytes) :
    Outcome (Store τ δ) Unit :=
  match s.mtx.Lock with
  | none => .blocked
  | some m =>
    let t := (E.delete s.tree key).1
    let d := (B.delete s.db (indexKey key)).1
    .returned () { tree := t, db := d, mtx := m.Unlock }

/-! ## The contracts of the collaborators -/

/-- The map contract of the tree engine: a successful update is read back, other keys
keep their value, the returned root is the new root, `Delete` is `Update` with the
default (empty) value, and removing a key that holds no value changes nothing. -/
structure TreeEngine.Lawful (E : TreeEngine τ) : Prop where
  get_update_same : ∀ t k v t' r, E.update t k v = (t', .ok r) → E.get t' k = .ok v
  get_update_other : ∀ t k v t' r k', E.update t k v = (t', .ok r) → k' ≠ k →
    E.get t' k' = E.get t k'
  update_root : ∀ t k v t' r, E.update t k v = (t', .ok r) → r = E.root t'
  delete_eq_update : ∀ t k, E.delete t k = E.update t k []
  update_absent : ∀ t k, E.get t k = .ok [] → E.update t k [] = (t, .ok (E.root t))
  get_empty : ∀ k, E.get E.empty k = .ok []

/-- A tree engine whose storage does not fail: no operation reports an error. -/
structure TreeEngine.Reliable (E : TreeEngine τ) : Prop where
  get_ok : ∀ t k, ∃ v, E.get t k = .ok v
  update_ok : ∀ t k v, ∃ t' r, E.update t k v = (t', .ok r)

/-- The map contract of the backend, as far as the index uses it: a written key is
present, a deleted key is not, other keys are untouched, and deleting a key that is
not present changes nothing. -/
structure Backend.Lawful (B : Backend δ) : Prop where
  has_set_same : ∀ d k v d', B.set d k v = (d', .ok ()) → B.has d' k = .ok true
  has_set_other : ∀ d k v d' k', B.set d k v = (d', .ok ()) → k' ≠ k →
    B.has d' k' = B.has d k'
  has_delete_same : ∀ d k d', B.delete d k = (d', .ok ()) → B.has d' k = .ok false
  has_delete_other : ∀ d k d' k', B.delete d k = (d', .ok ()) → k' ≠ k →
    B.has d' k' = B.has d k'
  delete_absent : ∀ d k, B.has d k = .ok false → (B.delete d k).1 = d

/-- A backend that does not fail: no operation on a non-empty key reports an error. -/
structure Backend.Reliable (B : Backend δ) : Prop where
  has_ok : ∀ d k, k ≠ [] → ∃ b, B.has d k = .ok b
  set_ok : ∀ d k v, k ≠ [] → ∃ d', B.set d k v = (d', .ok ())
  delete_ok : ∀ d k, k ≠ [] → ∃ d', B.delete d k = (d', .ok ())

/-! ## Reference collaborators

A map-backed tree engine and an in-memory backend, used to run the store on concrete
inputs, and wrappers that make a collaborator report storage failures. -/

/-- Entries of a map from keys to values, as an association list. -/
abbrev Entries := List (Bytes × Bytes)

/-- Lexicographic byte order, strict. -/
def bytesLt : Bytes → Bytes → Bool
  | [], [] => false
  | [], _ :: _ => true
  | _ :: _, [] => false
  | a :: as, b :: bs => if a < b then true else if b < a then false else bytesLt as bs

/-- The value bound to a key; the empty (default) value when there is none. -/
def Entries.lookup : Entries → Bytes → Bytes
  | [], _ => []
  | (k', v') :: rest, k => if k = k' then v' else Entries.lookup rest k

/-- Whether a key is bound. -/
def Entries.contains : Entries → Bytes → Bool
  | [], _ => false
  | (k', _) :: rest, k => if k = k' then true else Entries.contains rest k

/-- Drop every binding of a key. -/
def Entries.erase : Entries → Bytes → Entries
  | [], _ => []
  | (k', v') :: rest, k =>
    if k = k' then Entries.erase rest k else (k', v') :: Entries.erase rest k

/-- Bind a key, replacing its binding or inserting in key order. -/
def Entries.insert : Entries → Bytes → Bytes → Entries
  | [], k, v => [(k, v)]
  | (k', v') :: rest, k, v =>
    if k = k' then (k, v) :: rest
    else if bytesLt k k' then (k, v) :: (k', v') :: rest
    else (k', v') :: Entries.insert rest k v

/-- A stand-in for the root hash: a digest of the entries in key order, each entry as
key length, key, value length, value. -/
def Entries.digest : Entries → Bytes
  | [] => []
  | (k, v) :: rest =>
    (Fin.ofNat k.length :: k) ++ (Fin.ofNat v.length :: v) ++ Entries.digest rest

/-- The update of the map-backed tree: the empty value is the default value, so writing
it removes the key (and is a no-op when the key holds nothing); any other value is
bound to the key. -/
def mapTreeUpdate (t : Entries) (k v : Bytes) : Entries :=
  if v = [] then (if Entries.lookup t k = [] then t else Entries.erase t k)
  else Entries.insert t k v

/-- Modelled from the spec: the tree engine is an imported library, known here by its
contract: a map from keys to values with `Get`, `Update` and `Delete` by key and a root
that is a function of the current mapping, where the empty value stands for no value.
This is that map without the hashing.  It accepts every key and never fails. -/
def mapTree : TreeEngine Entries where
  empty := []
  root := Entries.digest
  get t k := .ok (Entries.lookup t k)
  update t k v := (mapTreeUpdate t k v, .ok (Entries.digest (mapTreeUpdate t k v)))
  delete t k := (mapTreeUpdate t k [], .ok (Entries.digest (mapTreeUpdate t k [])))

/-- Modelled from the spec: the persistent backend is an imported library, known here as
a byte-key to byte-value map with has, set and delete.  This is that map in memory; as
the backends of `tm-db` do, every operation rejects the empty key with an error, and
otherwise succeeds. -/
def memDB : Backend Entries where
  has d k := if k = [] then .error "key cannot be empty" else .ok (Entries.contains d k)
  set d k v := if k = [] then (d, .error "key cannot be empty")
    else (Entries.insert d k v, .ok ())
  delete d k := if k = [] then (d, .error "key cannot be empty")
    else (Entries.erase d k, .ok ())

/-- A tree engine whose storage has failed for writing: `Update` and `Delete` report an
error and leave the tree as it was; reads still work. -/
def TreeEngine.failWrites (E : TreeEngine τ) : TreeEngine τ :=
  { E with
    update := fun t _ _ => (t, .error "tree: storage failure")
    delete := fun t _ => (t, .error "tree: storage failure") }

/-- A tree engine whose storage has failed for reading: `Get` reports an error. -/
def TreeEngine.failReads (E : TreeEngine τ) : TreeEngine τ :=
  { E with get := fun _ _ => .error "tree: storage failure" }

/-- A backend that has failed for writing: `Set` and `Delete` report an error and
leave the data as it was; `Has` still works. -/
def Backend.failWrites (B : Backend δ) : Backend δ :=
  { B with
    set := fun d _ _ => (d, .error "db: storage failure")
    delete := fun d _ => (d, .error "db: storage failure") }

/-- The store after `Set` of key `k` (byte 107) to value `v` (byte 118) on a new store:
the tree binds the key and the index holds its entry. -/
def storeK : Store Entries Entries :=
  { tree := [([107], [118])], db := [(indexKey [107], [])], mtx := RWMutex.unlocked }

/-- The store after `Set` of key byte 107 to the empty value on a new store: the tree
holds nothing, the index holds the entry of the key. -/
def storeDiverged : Store Entries Entries :=
  { tree := [], db := [(indexKey [107], [])], mtx := RWMutex.unlocked }

/-- A store that a panicking `Set` left behind: empty, with the write lock held. -/
def storeLocked : Store Entries Entries :=
  { tree := [], db := [], mtx := ⟨0, true⟩ }

/-- The states a store goes through: a new store over the backend data `d0`, then any
sequence of `Set` and `Delete` calls that return. -/
inductive Reachable (E : TreeEngine τ) (B : Backend δ) (d0 : δ) : Store τ δ → Prop
  | init : Reachable E B d0 (NewStore E d0)
  | set (s s' : Store τ δ) (k v : Bytes) : Reachable E B d0 s →
      Store.Set E B s k v = .returned () s' → Reachable E B d0 s'
  | delete (s s' : Store τ δ) (k : Bytes) : Reachable E B d0 s →
      Store.Delete E B s k = .returned () s' → Reachable E B d0 s'

/-- The same, when every `Set` is called with a non-empty value. -/
inductive ReachableValid (E : TreeEngine τ) (B : Backend δ) (d0 : δ) : Store τ δ → Prop
  | init : ReachableValid E B d0 (NewStore E d0)
  | set (s s' : Store τ δ) (k v : Bytes) : ReachableValid E B d0 s → v ≠ [] →
      Store.Set E B s k v = .returned () s' → ReachableValid E B d0 s'
  | delete (s s' : Store τ δ) (k : Bytes) : ReachableValid E B d0 s →
      Store.Delete E B s k = .returned () s' → ReachableValid E B d0 s'

/-! ## The lock -/

theorem RWMutex.Lock_eq_some (m m' : RWMutex) (h : m.Lock = some m') :
    m = RWMutex.unlocked ∧ m' = ⟨0, true⟩ := by
  obtain ⟨r, w⟩ := m
  cases w <;> cases r <;> simp [RWMutex.Lock, RWMutex.unlocked] at h ⊢
  exact h.symm

theorem RWMutex.Lock_unlocked : RWMutex.unlocked.Lock = some ⟨0, true⟩ := rfl

theorem RWMutex.RLock_RUnlock (m : RWMutex) (h : m.writer = false) :
    ∃ m', m.RLock = some m' ∧ m'.RUnlock = m := by
  refine ⟨{ m with readers := m.readers + 1 }, ?_, ?_⟩
  · simp [RWMutex.RLock, h]
  · simp [RWMutex.RUnlock]

/-! ## What each call computes -/

theorem Store.Get_eq (E : TreeEngine τ) (s : Store τ δ) (k : Bytes)
    (h : s.mtx.writer = false) :
    Store.Get E s k =
      .returned (match E.get s.tree k with | .ok v => v | .error _ => []) s := by
  obtain ⟨m', h1, h2⟩ := RWMutex.RLock_RUnlock s.mtx h
  unfold Store.Get
  rw [h1]
  cases hg : E.get s.tree k <;> simp [h2]

theorem Store.Has_eq (B : Backend δ) (s : Store τ δ) (k : Bytes)
    (h : s.mtx.writer = false) :
    Store.Has B s k =
      .returned (match B.has s.db (indexKey k) with | .ok b => b | .error _ => false) s := by
  obtain ⟨m', h1, h2⟩ := RWMutex.RLock_RUnlock s.mtx h
  unfold Store.Has
  rw [h1]
  cases hg : B.has s.db (indexKey k) <;> simp [h2]

theorem Store.Delete_eq (E : TreeEngine τ) (B : Backend δ) (s : Store τ δ) (k : Bytes)
    (h : s.mtx = RWMutex.unlocked) :
    Store.Delete E B s k =
      .returned () { tree := (E.delete s.tree k).1, db := (B.delete s.db (indexKey k)).1,
                     mtx := RWMutex.unlocked } := by
  unfold Store.Delete
  rw [h, RWMutex.Lock_unlocked]
  rfl

theorem Store.Delete_returned (E : TreeEngine τ) (B : Backend δ) (s s' : Store τ δ)
    (k : Bytes) (h : Store.Delete E B s k = .returned () s') :
    s' = { tree := (E.delete s.tree k).1, db := (B.delete s.db (indexKey k)).1,
           mtx := RWMutex.unlocked } := by
  unfold Store.Delete at h
  cases hl : s.mtx.Lock with
  | none => rw [hl] at h; cases h
  | some m =>
    rw [hl] at h
    obtain ⟨-, rfl⟩ := RWMutex.Lock_eq_some _ _ hl
    simp only [Outcome.returned.injEq, true_and] at h
    exact h.symm

theorem Store.Set_returned (E : TreeEngine τ) (B : Backend δ) (s s' : Store τ δ)
    (k v : Bytes) (h : Store.Set E B s k v = .returned () s') :
    ∃ r, s.mtx = RWMutex.unlocked ∧ E.update s.tree k v = (s'.tree, .ok r) ∧
      B.set s.db (indexKey k) [] = (s'.db, .ok ()) ∧ s'.mtx = RWMutex.unlocked := by
  unfold Store.Set at h
  cases hl : s.mtx.Lock with
  | none => rw [hl] at h; cases h
  | some m =>
    rw [hl] at h
    obtain ⟨hm, rfl⟩ := RWMutex.Lock_eq_some _ _ hl
    rcases hu : E.update s.tree k v with ⟨t, _ | r⟩
    · rw [hu] at h; cases h
    · rcases hs : B.set s.db (indexKey k) [] with ⟨d, _ | u⟩
      · rw [hu, hs] at h; cases h
      · rw [hu, hs] at h
        simp only [Outcome.returned.injEq, true_and] at h
        subst h
        exact ⟨r, hm, rfl, rfl, rfl⟩

theorem indexKey_ne_nil (k : Bytes) : indexKey k ≠ [] := by
  simp [indexKey, indexPrefixBytes]

theorem indexKey_injective (k k' : Bytes) (h : indexKey k = indexKey k') : k = k' := by
  simpa [indexKey] using h

/-! ## The reference collaborators meet the contracts -/

theorem Entries.lookup_insert_same (t : Entries) (k v : Bytes) :
    Entries.lookup (Entries.insert t k v) k = v := by
  induction t with
  | nil => simp [Entries.insert, Entries.lookup]
  | cons e rest ih =>
    obtain ⟨k', v'⟩ := e
    by_cases h1 : k = k'
    · simp [Entries.insert, Entries.lookup, h1]
    · by_cases h2 : bytesLt k k' = true
      · simp [Entries.insert, Entries.lookup, h1, h2]
      · simp [Entries.insert, Entries.lookup, h1, h2, ih]

theorem Entries.lookup_insert_other (t : Entries) (k v k' : Bytes) (h : k' ≠ k) :
    Entries.lookup (Entries.insert t k v) k' = Entries.lookup t k' := by
  induction t with
  | nil => simp [Entries.insert, Entries.lookup, h]
  | cons e rest ih =>
    obtain ⟨k1, v1⟩ := e
    by_cases h1 : k = k1
    · subst h1; simp [Entries.insert, Entries.lookup, h]
    · by_cases h2 : bytesLt k k1 = true
      · simp [Entries.insert, Entries.lookup, h1, h2, h]
      · simp [Entries.insert, Entries.lookup, h1, h2, ih]

theorem Entries.lookup_erase_same (t : Entries) (k : Bytes) :
    Entries.lookup (Entries.erase t k) k = [] := by
  induction t with
  | nil => simp [Entries.erase, Entries.lookup]
  | cons e rest ih =>
    obtain ⟨k', v'⟩ := e
    by_cases h1 : k = k'
    · subst h1; simp [Entries.erase, ih]
    · simp [Entries.erase, Entries.lookup, h1, ih]

theorem Entries.lookup_erase_other (t : Entries) (k k' : Bytes) (h : k' ≠ k) :
    Entries.lookup (Entries.erase t k) k' = Entries.lookup t k' := by
  induction t with
  | nil => simp [Entries.erase, Entries.lookup]
  | cons e rest ih =>
    obtain ⟨k1, v1⟩ := e
    by_cases h1 : k = k1
    · subst h1; simp [Entries.erase, Entries.lookup, h, ih]
    · by_cases h2 : k' = k1 <;> simp [Entries.erase, Entries.lookup, h1, h2, ih]

theorem Entries.contains_insert_same (t : Entries) (k v : Bytes) :
    Entries.contains (Entries.insert t k v) k = true := by
  induction t with
  | nil => simp [Entries.insert, Entries.contains]
  | cons e rest ih =>
    obtain ⟨k', v'⟩ := e
    by_cases h1 : k = k'
    · simp [Entries.insert, Entries.contains, h1]
    · by_cases h2 : bytesLt k k' = true
      · simp [Entries.insert, Entries.contains, h1, h2]
      · simp [Entries.insert, Entries.contains, h1, h2, ih]

theorem Entries.contains_insert_other (t : Entries) (k v k' : Bytes) (h : k' ≠ k) :
    Entries.contains (Entries.insert t k v) k' = Entries.contains t k' := by
  induction t with
  | nil => simp [Entries.insert, Entries.contains, h]
  | cons e rest ih =>
    obtain ⟨k1, v1⟩ := e
    by_cases h1 : k = k1
    · subst h1; simp [Entries.insert, Entries.contains, h]
    · by_cases h2 : bytesLt k k1 = true
      · simp [Entries.insert, Entries.contains, h1, h2, h]
      · simp [Entries.insert, Entries.contains, h1, h2, ih]

theorem Entries.contains_erase_same (t : Entries) (k : Bytes) :
    Entries.contains (Entries.erase t k) k = false := by
  induction t with
  | nil => simp [Entries.erase, Entries.contains]
  | cons e rest ih =>
    obtain ⟨k', v'⟩ := e
    by_cases h1 : k = k'
    · subst h1; simp [Entries.erase, ih]
    · simp [Entries.erase, Entries.contains, h1, ih]

theorem Entries.contains_erase_other (t : Entries) (k k' : Bytes) (h : k' ≠ k) :
    Entries.contains (Entries.erase t k) k' = Entries.contains t k' := by
  induction t with
  | nil => simp [Entries.erase, Entries.contains]
  | cons e rest ih =>
    obtain ⟨k1, v1⟩ := e
    by_cases h1 : k = k1
    · subst h1; simp [Entries.erase, Entries.contains, h, ih]
    · by_cases h2 : k' = k1 <;> simp [Entries.erase, Entries.contains, h1, h2, ih]

theorem Entries.erase_of_not_contains (t : Entries) (k : Bytes)
    (h : Entries.contains t k = false) : Entries.erase t k = t := by
  induction t with
  | nil => simp [Entries.erase]
  | cons e rest ih =>
    obtain ⟨k', v'⟩ := e
    by_cases h1 : k = k'
    · simp [Entries.contains, h1] at h
    · simp only [Entries.contains, h1, if_false] at h
      simp [Entries.erase, h1, ih h]

theorem mapTreeUpdate_lookup_same (t : Entries) (k v : Bytes) :
    Entries.lookup (mapTreeUpdate t k v) k = v := by
  unfold mapTreeUpdate
  by_cases hv : v = []
  · by_cases hl : Entries.lookup t k = []
    · simp [hv, hl]
    · simp [hv, hl, Entries.lookup_erase_same]
  · simp [hv, Entries.lookup_insert_same]

theorem mapTreeUpdate_lookup_other (t : Entries) (k v k' : Bytes) (h : k' ≠ k) :
    Entries.lookup (mapTreeUpdate t k v) k' = Entries.lookup t k' := by
  unfold mapTreeUpdate
  by_cases hv : v = []
  · by_cases hl : Entries.lookup t k = []
    · simp [hv, hl]
    · simp [hv, hl, Entries.lookup_erase_other _ _ _ h]
  · simp [hv, Entries.lookup_insert_other _ _ _ _ h]

theorem mapTree_lawful : mapTree.Lawful where
  get_update_same := by
    intro t k v t' r h
    simp only [mapTree, Prod.mk.injEq] at h
    obtain ⟨rfl, -⟩ := h
    simp [mapTree, mapTreeUpdate_lookup_same]
  get_update_other := by
    intro t k v t' r k' h hne
    simp only [mapTree, Prod.mk.injEq] at h
    obtain ⟨rfl, -⟩ := h
    simp [mapTree, mapTreeUpdate_lookup_other _ _ _ _ hne]
  update_root := by
    intro t k v t' r h
    simp only [mapTree, Prod.mk.injEq, Except.ok.injEq] at h
    obtain ⟨rfl, rfl⟩ := h
    rfl
  delete_eq_update := by
    intro t k
    rfl
  update_absent := by
    intro t k h
    simp only [mapTree, Except.ok.injEq] at h
    simp [mapTree, mapTreeUpdate, h]
  get_empty := by
    intro k
    rfl

theorem mapTree_reliable : mapTree.Reliable where
  get_ok := fun _ _ => ⟨_, rfl⟩
  update_ok := fun _ _ _ => ⟨_, _, rfl⟩

theorem memDB_lawful : memDB.Lawful where
  has_set_same := by
    intro d k v d' h
    by_cases hk : k = []
    · simp [memDB, hk] at h
    · simp only [memDB, hk, if_false, Prod.mk.injEq, and_true] at h
      subst h
      simp [memDB, hk, Entries.contains_insert_same]
  has_set_other := by
    intro d k v d' k' h hne
    by_cases hk : k = []
    · simp [memDB, hk] at h
    · simp only [memDB, hk, if_false, Prod.mk.injEq, and_true] at h
      subst h
      simp [memDB, Entries.contains_insert_other _ _ _ _ hne]
  has_delete_same := by
    intro d k d' h
    by_cases hk : k = []
    · simp [memDB, hk] at h
    · simp only [memDB, hk, if_false, Prod.mk.injEq, and_true] at h
      subst h
      simp [memDB, hk, Entries.contains_erase_same]
  has_delete_other := by
    intro d k d' k' h hne
    by_cases hk : k = []
    · simp [memDB, hk] at h
    · simp only [memDB, hk, if_false, Prod.mk.injEq, and_true] at h
      subst h
      simp [memDB, Entries.contains_erase_other _ _ _ hne]
  delete_absent := by
    intro d k h
    by_cases hk : k = []
    · simp [memDB, hk]
    · simp only [memDB, hk, if_false, Except.ok.injEq] at h
      simp [memDB, hk, Entries.erase_of_not_contains _ _ h]

theorem memDB_reliable : memDB.Reliable where
  has_ok := by
    intro d k hk
    exact ⟨Entries.contains d k, by simp [memDB, hk]⟩
  set_ok := by
    intro d k v hk
    exact ⟨Entries.insert d k v, by simp [memDB, hk]⟩
  delete_ok := by
    intro d k hk
    exact ⟨Entries.erase d k, by simp [memDB, hk]⟩

/-! ## Set and Delete, then Get and Has -/

/-- C1: for a tree engine and a backend that meet their map contract, every store
state, every non-empty key and every non-empty value: when `Set(k, v)` returns
normally, in the resulting state `Get(k)` returns `v`, `Has(k)` returns true, and the
index holds the entry `indexKey(k)`. -/
theorem Set_then_Get_Has (E : TreeEngine τ) (B : Backend δ) (hE : E.Lawful)
    (hB : B.Lawful) (s s' : Store τ δ) (k v : Bytes) (_hk : k ≠ []) (_hv : v ≠ [])
    (h : Store.Set E B s k v = .returned () s') :
    Store.Get E s' k = .returned v s' ∧ Store.Has B s' k = .returned true s' ∧
      B.has s'.db (indexKey k) = .ok true := by
  obtain ⟨r, -, hu, hs, hm⟩ := Store.Set_returned E B s s' k v h
  have hw : s'.mtx.writer = false := by rw [hm]; rfl
  have hg := hE.get_update_same _ _ _ _ _ hu
  have hh := hB.has_set_same _ _ _ _ hs
  refine ⟨?_, ?_, hh⟩
  · rw [Store.Get_eq E s' k hw, hg]
  · rw [Store.Has_eq B s' k hw, hh]

theorem Set_then_Get_Has_witness :
    Store.Set mapTree memDB (NewStore mapTree []) [107] [118] = .returned () storeK ∧
    Store.Get mapTree storeK [107] = .returned [118] storeK ∧
    Store.Has memDB storeK [107] = .returned true storeK ∧
    memDB.has storeK.db (indexKey [107]) = .ok true :=
  ⟨by decide, Set_then_Get_Has mapTree memDB mapTree_lawful memDB_lawful
    (NewStore mapTree []) storeK [107] [118] (by decide) (by decide) (by decide)⟩

/-- When neither collaborator fails (and both meet their map contract), a `Delete` that
returns leaves the key absent: `Get(k)` returns the empty value, `Has(k)` returns false
and the index no longer holds `indexKey(k)`. -/
theorem Delete_then_absent_of_reliable (E : TreeEngine τ) (B : Backend δ) (hE : E.Lawful)
    (hER : E.Reliable) (hB : B.Lawful) (hBR : B.Reliable) (s s' : Store τ δ) (k : Bytes)
    (_hk : k ≠ []) (h : Store.Delete E B s k = .returned () s') :
    Store.Get E s' k = .returned [] s' ∧ Store.Has B s' k = .returned false s' ∧
      B.has s'.db (indexKey k) = .ok false := by
  have hs' := Store.Delete_returned E B s s' k h
  obtain ⟨t', r, hu⟩ := hER.update_ok s.tree k []
  obtain ⟨d', hd⟩ := hBR.delete_ok s.db (indexKey k) (indexKey_ne_nil k)
  have hg := hE.get_update_same _ _ _ _ _ hu
  have hh := hB.has_delete_same _ _ _ hd
  rw [hE.delete_eq_update, hu, hd] at hs'
  subst hs'
  refine ⟨?_, ?_, hh⟩
  · rw [Store.Get_eq E _ k rfl]; simp only [hg]
  · rw [Store.Has_eq B _ k rfl]; simp only [hh]

/-- C8: for a tree engine and a backend that meet their map contract, every store state
with the lock free and every non-empty key that is absent (the tree holds no value for
it and the index holds no entry for it): `Delete(k)` returns normally and leaves the
store exactly as it was, and the tree reports the root hash it had. -/
theorem Delete_absent_unchanged (E : TreeEngine τ) (B : Backend δ) (hE : E.Lawful)
    (hB : B.Lawful) (s : Store τ δ) (k : Bytes) (_hk : k ≠ [])
    (hfree : s.mtx = RWMutex.unlocked) (htree : E.get s.tree k = .ok [])
    (hidx : B.has s.db (indexKey k) = .ok false) :
    Store.Delete E B s k = .returned () s ∧
      (E.delete s.tree k).2 = .ok (E.root s.tree) := by
  have ht := hE.update_absent _ _ htree
  have hd := hB.delete_absent _ _ hidx
  rw [Store.Delete_eq E B s k hfree, hE.delete_eq_update, ht, hd]
  refine ⟨?_, rfl⟩
  obtain ⟨t, d, m⟩ := s
  simp only at hfree
  subst hfree
  rfl

theorem Delete_absent_unchanged_witness :
    mapTree.get storeK.tree [120] = .ok [] ∧
    memDB.has storeK.db (indexKey [120]) = .ok false ∧
    Store.Delete mapTree memDB storeK [120] = .returned () storeK ∧
    (mapTree.delete storeK.tree [120]).2 = .ok (mapTree.root storeK.tree) :=
  ⟨rfl, rfl, Delete_absent_unchanged mapTree memDB mapTree_lawful memDB_lawful
    storeK [120] (by decide) rfl rfl rfl⟩

/-! ## Error paths -/

/-- C9: for every store state that no writer holds and every non-empty key: when the
tree read returns an error `Get` returns the absent indicator (nil), otherwise it
returns exactly the value the tree read returned; in both cases `Get` returns normally
(the error is not surfaced) and leaves the store state as it was. -/
theorem Get_read_error_is_absent (E : TreeEngine τ) (s : Store τ δ) (k : Bytes)
    (_hk : k ≠ []) (hlock : s.mtx.writer = false) :
    (∀ e, E.get s.tree k = .error e → Store.Get E s k = .returned [] s) ∧
    (∀ v, E.get s.tree k = .ok v → Store.Get E s k = .returned v s) ∧
    (Store.Get E s k).isPanicked = false := by
  rw [Store.Get_eq E s k hlock]
  refine ⟨?_, ?_, rfl⟩
  · intro e he; rw [he]
  · intro v hv; rw [hv]

theorem Get_read_error_is_absent_witness :
    mapTree.failReads.get storeK.tree [107] = .error "tree: storage failure" ∧
    Store.Get mapTree.failReads storeK [107] = .returned [] storeK ∧
    Store.Get mapTree storeK [107] = .returned [118] storeK :=
  ⟨rfl,
   (Get_read_error_is_absent mapTree.failReads storeK [107] (by decide) rfl).1 _ rfl,
   (Get_read_error_is_absent mapTree storeK [107] (by decide) rfl).2.1 _ rfl⟩

/-- C6: for every store state with the lock free, every key and value: when the tree
update inside `Set` returns an error, `Set` panics with that error and the index is
what it was before the call (no index entry is written). -/
theorem Set_tree_error_panics (E : TreeEngine τ) (B : Backend δ) (s : Store τ δ)
    (k v : Bytes) (t' : τ) (e : String) (hfree : s.mtx = RWMutex.unlocked)
    (herr : E.update s.tree k v = (t', .error e)) :
    ∃ s', Store.Set E B s k v = .panicked e s' ∧ s'.db = s.db ∧
      B.has s'.db (indexKey k) = B.has s.db (indexKey k) := by
  refine ⟨{ tree := t', db := s.db, mtx := ⟨0, true⟩ }, ?_, rfl, rfl⟩
  unfold Store.Set
  rw [hfree, RWMutex.Lock_unlocked]
  simp only [herr]

theorem Set_tree_error_panics_witness :
    mapTree.failWrites.update (NewStore mapTree ([] : Entries)).tree [107] [118] =
      ([], .error "tree: storage failure") ∧
    ∃ s', Store.Set mapTree.failWrites memDB (NewStore mapTree []) [107] [118] =
        .panicked "tree: storage failure" s' ∧ s'.db = [] ∧
      memDB.has s'.db (indexKey [107]) = memDB.has [] (indexKey [107]) :=
  ⟨rfl, Set_tree_error_panics mapTree.failWrites memDB (NewStore mapTree []) [107] [118]
    [] "tree: storage failure" rfl rfl⟩

/-- C4: `Set` has no check of its arguments.  On a new store over the reference
collaborators, `Set` with the empty key and `Set` with the empty value both return
normally; the first writes the tree and the index, the second writes the index. -/
theorem Set_accepts_empty_key_and_value :
    Store.Set mapTree memDB (NewStore mapTree []) [] [120] =
      .returned () { tree := [([], [120])], db := [(indexKey [], [])],
                     mtx := RWMutex.unlocked } ∧
    Store.Set mapTree memDB (NewStore mapTree []) [107] [] =
      .returned () { tree := [], db := [(indexKey [107], [])],
                     mtx := RWMutex.unlocked } :=
  ⟨by decide, by decide⟩

/-- C5: `Get`, `Has` and `Delete` have no check of the key.  Whatever the collaborators,
the state and the key, none of them ends in a panic; with the empty key on the reference
collaborators `Get` returns nil, `Has` returns false and `Delete` returns having changed
nothing. -/
theorem Get_Has_Delete_empty_key_no_panic :
    (∀ (E : TreeEngine τ) (B : Backend δ) (s : Store τ δ)
        (k : Bytes), (Store.Get E s k).isPanicked = false ∧
        (Store.Has B s k).isPanicked = false ∧
        (Store.Delete E B s k).isPanicked = false) ∧
    Store.Get mapTree storeK [] = .returned [] storeK ∧
    Store.Has memDB storeK [] = .returned false storeK ∧
    Store.Delete mapTree memDB storeK [] = .returned () storeK := by
  refine ⟨?_, by decide, by decide, by decide⟩
  intro E B s k
  refine ⟨?_, ?_, ?_⟩
  · unfold Store.Get
    cases s.mtx.RLock with
    | none => rfl
    | some m => cases E.get s.tree k <;> rfl
  · unfold Store.Has
    cases s.mtx.RLock with
    | none => rfl
    | some m => cases B.has s.db (indexKey k) <;> rfl
  · unfold Store.Delete
    cases s.mtx.Lock with
    | none => rfl
    | some m => rfl

/-- C7: `Delete` discards the result of the tree deletion.  With a tree whose deletion
reports an error (and keeps the key), `Delete` returns normally and has removed the
index entry all the same: afterwards the tree still reads the value while `Has` is
false. -/
theorem Delete_ignores_tree_error :
    (mapTree.failWrites.delete storeK.tree [107]).2 = .error "tree: storage failure" ∧
    Store.Delete mapTree.failWrites memDB storeK [107] =
      .returned () { tree := [([107], [118])], db := [], mtx := RWMutex.unlocked } ∧
    Store.Get mapTree.failWrites
        ({ tree := [([107], [118])], db := [], mtx := RWMutex.unlocked } :
          Store Entries Entries) [107] =
      .returned [118] { tree := [([107], [118])], db := [], mtx := RWMutex.unlocked } ∧
    Store.Has memDB
        ({ tree := [([107], [118])], db := [], mtx := RWMutex.unlocked } :
          Store Entries Entries) [107] =
      .returned false { tree := [([107], [118])], db := [], mtx := RWMutex.unlocked } :=
  ⟨rfl, by decide, by decide, by decide⟩

/-- C2: `Delete` returns normally whatever its two deletions report, so the key need
not be gone.  On a store holding key byte 107 with its index entry: when both the tree
deletion and the index deletion report an error, `Delete` returns with the store as it
was, and afterwards `Get` still returns the value and `Has` still returns true; when
only the index deletion reports an error, `Delete` returns with the index entry still
there, and afterwards `Has` returns true. -/
theorem Delete_returns_with_key_present :
    Store.Delete mapTree.failWrites memDB.failWrites storeK [107] = .returned () storeK ∧
    Store.Get mapTree.failWrites storeK [107] = .returned [118] storeK ∧
    Store.Has memDB.failWrites storeK [107] = .returned true storeK ∧
    Store.Delete mapTree memDB.failWrites storeK [107] =
      .returned () { tree := [], db := [(indexKey [107], [])],
                     mtx := RWMutex.unlocked } ∧
    Store.Has memDB.failWrites
        ({ tree := [], db := [(indexKey [107], [])], mtx := RWMutex.unlocked } :
          Store Entries Entries) [107] =
      .returned true { tree := [], db := [(indexKey [107], [])],
                       mtx := RWMutex.unlocked } :=
  ⟨by decide, by decide, by decide, by decide, by decide⟩

/-- C10: `Set` unlocks in its last statement only.  Started with the lock free, a `Set`
whose tree update fails, and a `Set` whose index write fails, both end in a panic with
the write lock still held; a later `Get` on that store does not get the lock. -/
theorem Set_panic_leaves_lock_held :
    Store.Set mapTree.failWrites memDB (NewStore mapTree []) [107] [118] =
      .panicked "tree: storage failure" storeLocked ∧
    Store.Set mapTree memDB.failWrites (NewStore mapTree []) [107] [118] =
      .panicked "db: storage failure"
        { tree := [([107], [118])], db := [], mtx := ⟨0, true⟩ } ∧
    (NewStore mapTree ([] : Entries)).mtx = RWMutex.unlocked ∧
    storeLocked.mtx ≠ RWMutex.unlocked ∧
    Store.Get mapTree storeLocked [107] = .blocked :=
  ⟨by decide, by decide, by decide, by decide, by decide⟩

/-! ## The index and the tree over the life of a store -/

theorem ReachableValid.unlocked (E : TreeEngine τ) (B : Backend δ) (d0 : δ)
    (s : Store τ δ) (hs : ReachableValid E B d0 s) : s.mtx = RWMutex.unlocked := by
  cases hs with
  | init => rfl
  | set s0 _ k v _ _ h =>
    obtain ⟨_, -, -, -, hm⟩ := Store.Set_returned E B s0 s k v h
    exact hm
  | delete s0 _ k _ h =>
    rw [Store.Delete_returned E B s0 s k h]

/-- As long as every `Set` carries a non-empty value and the collaborators meet their
contracts without failing, the index holds the entry of a key exactly when the tree
holds a non-empty value for it. -/
theorem ReachableValid.index_iff_tree (E : TreeEngine τ) (B : Backend δ) (hE : E.Lawful)
    (hER : E.Reliable) (hB : B.Lawful) (hBR : B.Reliable) (d0 : δ)
    (hd0 : ∀ k, B.has d0 (indexKey k) = .ok false) (s : Store τ δ)
    (hs : ReachableValid E B d0 s) (k : Bytes) :
    B.has s.db (indexKey k) = .ok true ↔ ∃ v, v ≠ [] ∧ E.get s.tree k = .ok v := by
  induction hs generalizing k with
  | init =>
    simp only [NewStore, hd0, hE.get_empty]
    constructor
    · intro h; cases h
    · rintro ⟨v, hv, h⟩
      simp only [Except.ok.injEq] at h
      exact absurd h.symm hv
  | set s0 s1 k0 v0 _ hv0 h ih =>
    obtain ⟨r, -, hu, hset, -⟩ := Store.Set_returned E B s0 s1 k0 v0 h
    by_cases hk : k = k0
    · subst hk
      rw [hB.has_set_same _ _ _ _ hset, hE.get_update_same _ _ _ _ _ hu]
      exact ⟨fun _ => ⟨v0, hv0, rfl⟩, fun _ => rfl⟩
    · have hik : indexKey k ≠ indexKey k0 := fun hc => hk (indexKey_injective _ _ hc)
      rw [hB.has_set_other _ _ _ _ _ hset hik, hE.get_update_other _ _ _ _ _ _ hu hk]
      exact ih k
  | delete s0 s1 k0 _ h ih =>
    have hs1 := Store.Delete_returned E B s0 s1 k0 h
    obtain ⟨t', r, hu⟩ := hER.update_ok s0.tree k0 []
    obtain ⟨d', hd⟩ := hBR.delete_ok s0.db (indexKey k0) (indexKey_ne_nil k0)
    rw [hE.delete_eq_update, hu, hd] at hs1
    subst hs1
    by_cases hk : k = k0
    · subst hk
      simp only [hB.has_delete_same _ _ _ hd, hE.get_update_same _ _ _ _ _ hu]
      constructor
      · intro hc; cases hc
      · rintro ⟨v, hv, hc⟩
        simp only [Except.ok.injEq] at hc
        exact absurd hc.symm hv
    · have hik : indexKey k ≠ indexKey k0 := fun hc => hk (indexKey_injective _ _ hc)
      simp only [hB.has_delete_other _ _ _ _ hd hik,
        hE.get_update_other _ _ _ _ _ _ hu hk]
      exact ih k

/-- C3: the state after `Set` of a key to the empty value on a new empty store is
reachable by one `Set` call, and in it the index holds the entry of the key while
the tree holds no value for it: `Has` returns true and `Get` returns the absent
indicator. -/
theorem Set_empty_value_breaks_index_agreement :
    Store.Set mapTree memDB (NewStore mapTree []) [107] [] = .returned () storeDiverged ∧
    Reachable mapTree memDB [] storeDiverged ∧
    Store.Has memDB storeDiverged [107] = .returned true storeDiverged ∧
    Store.Get mapTree storeDiverged [107] = .returned [] storeDiverged :=
  ⟨by decide,
   Reachable.set (NewStore mapTree []) storeDiverged [107] [] Reachable.init (by decide),
   by decide, by decide⟩

end Smt
